import Mathlib

/-!
A shallow embedding of the action-sequence verification engine of
`src/formalVerification/app.py` (the `/verify` endpoint and the
`auto_expand_sequence` helper), together with theorems settling the
frozen claims about it.

Conventions of the embedding:
* Python `set` of fact strings  ↦  `Finset String` (set equality is
  `Finset` equality, mirroring `frozenset` keys).
* Python `int` battery arithmetic ↦ `Int` with an explicit `max 0 _`,
  exactly as in the source (`max(0, battery_level - 20)`).
* The Prolog rule base `rules.pl` consulted by `app.py` is not part of
  the repository sources; following the specification it is treated as
  an opaque external oracle, so the engine is parametrised by an
  `Oracle` record.  An unexpected exception raised by a query is
  modelled by `Except.error ()` (for the three queries whose exceptions
  the source does not catch) and by `VOut.exn` for the `validate` query
  (whose exception the source catches at lines 354-363).
* Geometric coordinates of `auto_expand_sequence` are modelled by `ℚ`;
  the source's `dist**0.5` is replaced by the squared distance, which
  yields the same comparisons because squaring is strictly monotone on
  nonnegative reals (the rational model abstracts from floating-point
  rounding).
-/

namespace FVApp

/-- Python `str.strip()` (line 318 `action.strip()` etc.): remove leading and
trailing whitespace (stated structurally over the character list). -/
def pyStrip (s : String) : String :=
  String.mk (((s.toList.dropWhile Char.isWhitespace).reverse.dropWhile
    Char.isWhitespace).reverse)

/-- Python `str.lower()` for the ASCII tokens used by the program (stated
structurally over the character list). -/
def pyLower (s : String) : String := String.mk (s.toList.map Char.toLower)

/-- Python `str.split(",")`: split at every comma; the empty string yields
`[""]`, like Python. -/
def splitCommaAux : List Char → List Char → List String
  | [], acc => [String.mk acc.reverse]
  | c :: cs, acc =>
    if c = ',' then String.mk acc.reverse :: splitCommaAux cs []
    else splitCommaAux cs (c :: acc)

/-- Python `str.split(",")` on a string. -/
def pySplitComma (s : String) : List String := splitCommaAux s.toList []

/-- Normalisation applied per action token at line 318:
`action.strip().lower()`. -/
def normAtom (a : String) : String := pyLower (pyStrip a)

/-- Python `str.strip("[]")` (line 274): remove leading and trailing `[` and
`]` characters. -/
def pyStripBrackets (s : String) : String :=
  String.mk (((s.toList.dropWhile (fun c => c = '[' ∨ c = ']')).reverse.dropWhile
    (fun c => c = '[' ∨ c = ']')).reverse)

/-- A JSON value appearing in the `actions` list of the request body; the
source applies Python `str` to it (line 276), so only the rendered string
matters.  `PyVal.s` is a string element, `PyVal.i` an integer element. -/
inductive PyVal where
  | s (v : String)
  | i (v : Int)
deriving DecidableEq

/-- Python `str(a)` on a request-list element (line 276). -/
def pyStr : PyVal → String
  | .s v => v
  | .i v => toString v

/-- The shape of the `actions` field of the request body. -/
inductive ActionsInput where
  | str (v : String)
  | list (v : List PyVal)
  | other
deriving DecidableEq

/-- Input normalisation of the `/verify` endpoint, lines 272-278:
a string is bracket-stripped, comma-split and per-piece stripped; a list is
mapped through `str(a).strip().lower()`; anything else is rejected with a
400 response (`none`). -/
def normalizeActions : ActionsInput → Option (List String)
  | .str v => some ((pySplitComma (pyStripBrackets v)).map pyStrip)
  | .list v => some (v.map (fun a => pyLower (pyStrip (pyStr a))))
  | .other => none

/-- Decidable equality for `Except`, used to evaluate runs of the model on
closed inputs. -/
instance {ε α : Type} [DecidableEq ε] [DecidableEq α] : DecidableEq (Except ε α) :=
  fun x y =>
    match x, y with
    | .error e, .error e' =>
      if h : e = e' then .isTrue (congrArg Except.error h)
      else .isFalse (fun hh => h (Except.error.inj hh))
    | .error _, .ok _ => .isFalse (fun hh => Except.noConfusion hh)
    | .ok _, .error _ => .isFalse (fun hh => Except.noConfusion hh)
    | .ok a, .ok b =>
      if h : a = b then .isTrue (congrArg Except.ok h)
      else .isFalse (fun hh => h (Except.ok.inj hh))

/-- Outcome of the `validate('A', Result)` Prolog query of lines 353-363:
either a result list (the `res_list` bindings) together with the world state
after the query's side effects, or an exception, after which the world is in
the state the query left it in. -/
inductive VOut where
  | ok (res : List String) (st : Finset String)
  | exn (st : Finset String)
deriving DecidableEq

/-- The external world-state oracle (the consulted Prolog program
`rules.pl`, which is not part of the repository sources).  `isAction`,
`precondition` and `missing` return `Except.error ()` when the underlying
query raises an unexpected exception; only `validate`'s exceptions are
caught by the source, hence its distinct `VOut` type carrying the
post-exception world state. -/
structure Oracle where
  isAction : String → Except Unit Bool
  precondition : String → Except Unit (List String)
  validate : String → Finset String → VOut
  missing : String → Finset String → Except Unit (List String)

/-- Lines 357-363: the head of a nonempty `res_list` is the result, an empty
list yields `"invalid_action"`, an exception yields `"error_processing"`;
paired with the world state after the query. -/
def validateOutcome : VOut → String × Finset String
  | .ok res st => (res.headD "invalid_action", st)
  | .exn st => ("error_processing", st)

/-- One entry of the `results` list (lines 330-338 and 432-441).  The
`battery` field is `none` for the unknown-action record, which has no
`"battery"` key in the source. -/
structure StepRecord where
  action : String
  result : String
  precondition : String
  precondition_met : Bool
  explanation : String
  from_state : List String
  to_state : List String
  battery : Option Int
deriving DecidableEq

/-- One FSM node (lines 308-314 and 407-413). -/
structure FsmNode where
  id : Nat
  label : String
  state : List String
  step : Nat
  type : String
deriving DecidableEq

/-- One FSM edge (lines 419-427).  `fromId` models the `"from"` key, whose
value is `state_id_map.get(...)`, i.e. possibly `None`; `toId` the `"to"`
key (`from` and `to` are reserved words in Lean). -/
structure FsmEdge where
  fromId : Option Nat
  toId : Nat
  label : String
  action : String
  step : Nat
  valid : Bool
  precondition : String
deriving DecidableEq

/-- Python `sorted(list(state))` on a fact set (lines 311, 323, 410, 430):
Mathlib's `Finset.sort` with the lexicographic order on strings. -/
def sortFacts (st : Finset String) : List String :=
  st.sort (· ≤ ·)

/-- `state_to_label` of lines 180-186. -/
def state_to_label (st : Finset String) : String :=
  if st = ∅ then "Initial" else String.intercalate ", " (sortFacts st)

/-- `", ".join(preconditions) if preconditions else "N/A"` (lines 426, 435). -/
def joinPreconds (ps : List String) : String :=
  if ps.isEmpty then "N/A" else String.intercalate ", " ps

/-- Lookup in the `state_id_map` dictionary, modelled as an association list
in insertion order; `dict.get` returns `None` when the key is absent. -/
def mapGet (m : List (Finset String × Nat)) (k : Finset String) : Option Nat :=
  (m.find? (fun p => p.1 = k)).map (·.2)

/-- The battery update of lines 389-396: drain is applied only when the
validate result is `"valid"`, with the per-class amounts and a floor at 0. -/
def batteryDrain (action_atom result : String) (b : Int) : Int :=
  if result = "valid" then
    if action_atom ∈ ["moveforward", "moveleft", "moveright", "turnleft", "turnright"] then
      max 0 (b - 20)
    else if action_atom ∈ ["scanarea", "pickobject", "releaseobject"] then
      max 0 (b - 10)
    else b
  else b

/-- The explanation text of lines 370-384. -/
def buildExplanation (action_atom : String) (preconditions : List String)
    (result : String) (missing_preconditions : List String) : String :=
  if result = "valid" then
    if ¬ preconditions.isEmpty then
      "Action '" ++ action_atom ++ "' is valid. All preconditions satisfied: " ++
        String.intercalate ", " preconditions ++ "."
    else
      "Action '" ++ action_atom ++ "' is valid."
  else if result = "precondition_failed" then
    if ¬ missing_preconditions.isEmpty then
      "Action '" ++ action_atom ++ "' failed. Missing preconditions: " ++
        String.intercalate ", " missing_preconditions ++ "."
    else
      "Action '" ++ action_atom ++ "' failed: One or more preconditions are not satisfied."
  else if result = "invalid_action" then
    "'" ++ action_atom ++ "' is not a recognized action."
  else
    "Action '" ++ action_atom ++ "' resulted in error: " ++ result ++ "."

/-- The mutable local state of the `verify` loop of lines 291-316:
`results`, `all_valid`, `battery_level`, `battery_history`, `fsm_nodes`,
`fsm_edges`, the Python variable `current_state`, `state_id_map`,
`node_counter`, and the Prolog world (read through
`get_current_world_state`). -/
structure LoopState where
  results : List StepRecord
  all_valid : Bool
  battery_level : Int
  battery_history : List Int
  fsm_nodes : List FsmNode
  fsm_edges : List FsmEdge
  current_state : Finset String
  state_id_map : List (Finset String × Nat)
  node_counter : Nat
  world : Finset String
deriving DecidableEq

/-- The node get-or-create block of lines 402-414: when the post-step fact
set has no node yet, append a map entry and a node and advance the counter;
returns the updated `(state_id_map, fsm_nodes, node_counter)`. -/
def nodeUpsert (m : List (Finset String × Nat)) (nodes : List FsmNode)
    (counter : Nat) (new_state : Finset String) (stp : Nat) (result : String) :
    List (Finset String × Nat) × List FsmNode × Nat :=
  if (mapGet m new_state).isNone then
    (m ++ [(new_state, counter)],
     nodes ++ [{ id := counter,
                 label := "S" ++ toString counter ++ ": " ++ state_to_label new_state,
                 state := sortFacts new_state,
                 step := stp,
                 type := if result = "valid" then "valid" else "invalid" }],
     counter + 1)
  else (m, nodes, counter)

/-- The unknown-action branch of lines 328-340: a record with result
`"invalid_action"`, no `"battery"` key and unchanged state is appended,
`all_valid` is cleared, and the `continue` skips the battery-history
append, the node upsert and the edge append. -/
def unknownStep (s : LoopState) (action_atom : String) : LoopState :=
  let from_state_list := sortFacts s.world
  { s with
    results := s.results ++ [{
      action := action_atom,
      result := "invalid_action",
      precondition := "N/A",
      precondition_met := false,
      explanation := "'" ++ action_atom ++
        "' is not a recognized action. Valid actions are: scanarea, moveforward, pickobject.",
      from_state := from_state_list,
      to_state := from_state_list,
      battery := none }],
    all_valid := false }

/-- The known-action tail of a loop iteration, lines 342-444, after the
oracle queries have answered: `preconditions` is the precondition listing,
`(result, world1)` the classified validate outcome and post-validate world,
`missing_preconditions` the missing-precondition listing (queried, as in the
source, against `world1`). -/
def knownStep (s : LoopState) (stp : Nat) (action_atom : String)
    (preconditions : List String) (result : String) (world1 : Finset String)
    (missing_preconditions : List String) : LoopState :=
  let from_state_id := mapGet s.state_id_map s.current_state
  let from_state_list := sortFacts s.world
  let all_preconditions_met := missing_preconditions.isEmpty
  let explanation := buildExplanation action_atom preconditions result missing_preconditions
  let new_state := world1
  let battery1 := batteryDrain action_atom result s.battery_level
  let upsert := nodeUpsert s.state_id_map s.fsm_nodes s.node_counter new_state stp result
  let to_state_id := (mapGet upsert.1 new_state).getD 0
  let edge : FsmEdge := {
    fromId := from_state_id,
    toId := to_state_id,
    label := action_atom,
    action := action_atom,
    step := stp,
    valid := result == "valid",
    precondition := joinPreconds preconditions }
  { results := s.results ++ [{
      action := action_atom,
      result := result,
      precondition := joinPreconds preconditions,
      precondition_met := all_preconditions_met,
      explanation := explanation,
      from_state := from_state_list,
      to_state := sortFacts new_state,
      battery := some battery1 }],
    all_valid := if result ≠ "valid" then false else s.all_valid,
    battery_level := battery1,
    battery_history := s.battery_history ++ [battery1],
    fsm_nodes := upsert.2.1,
    fsm_edges := s.fsm_edges ++ [edge],
    current_state := new_state,
    state_id_map := upsert.1,
    node_counter := upsert.2.2,
    world := world1 }

/-- One iteration of the `for step, action in enumerate(actions, 1)` loop of
lines 317-444.  An uncaught oracle exception (membership check,
precondition listing, or missing-precondition query) propagates as
`Except.error ()`; the validate query's exception is caught and classified
`"error_processing"`. -/
def stepAction (O : Oracle) (stp : Nat) (s : LoopState) (action : String) :
    Except Unit LoopState :=
  let action_atom := normAtom action
  match O.isAction action_atom with
  | .error e => .error e
  | .ok known =>
    if ¬ known then
      .ok (unknownStep s action_atom)
    else
      match O.precondition action_atom with
      | .error e => .error e
      | .ok preconditions =>
        let vo := validateOutcome (O.validate action_atom s.world)
        match O.missing action_atom vo.2 with
        | .error e => .error e
        | .ok missing_preconditions =>
          .ok (knownStep s stp action_atom preconditions vo.1 vo.2 missing_preconditions)

/-- The whole action loop of lines 317-444, threading the loop state. -/
def runLoop (O : Oracle) : List String → Nat → LoopState → Except Unit LoopState
  | [], _, s => .ok s
  | a :: rest, stp, s =>
    match stepAction O stp s a with
    | .error e => .error e
    | .ok s' => runLoop O rest (stp + 1) s'

/-- The canonical initial fact set established by `reset_world_state`
(lines 11-18). -/
def initFacts : Finset String := {"powered_off", "battery_full", "object_detected"}

/-- The initial FSM node of lines 305-315. -/
def initNode : FsmNode :=
  { id := 0,
    label := "S0: " ++ state_to_label initFacts,
    state := sortFacts initFacts,
    step := 0,
    type := "initial" }

/-- The loop state right before the action loop starts (lines 288-315):
battery 100, empty histories, the initial node registered with id 0. -/
def initialLoopState : LoopState :=
  { results := [],
    all_valid := true,
    battery_level := 100,
    battery_history := [],
    fsm_nodes := [initNode],
    fsm_edges := [],
    current_state := initFacts,
    state_id_map := [(initFacts, 0)],
    node_counter := 1,
    world := initFacts }

/-- The response payload of lines 450-461. -/
structure Report where
  validation : List StepRecord
  summary : String
  summary_details : String
  final_state : List String
  final_battery : Int
  battery_history : List Int
  fsm_nodes : List FsmNode
  fsm_edges : List FsmEdge
deriving DecidableEq

/-- The `verify` run on an already-normalised, already-expanded action list
(lines 288-461): reset the world, run the loop, assemble the report.
`final_state` is the `world/1` fact listing, rendered sorted (the source
returns it in Prolog enumeration order, which the set model abstracts). -/
def verify (O : Oracle) (actions : List String) : Except Unit Report :=
  match runLoop O actions 1 initialLoopState with
  | .error e => .error e
  | .ok s =>
    .ok { validation := s.results,
          summary := if s.all_valid then "VALID SEQUENCE" else "INVALID SEQUENCE",
          summary_details :=
            if s.all_valid then
              "All " ++ toString actions.length ++ " actions are valid."
            else
              "Found " ++ toString (s.results.countP (fun r => r.result ≠ "valid")) ++
                " invalid action(s) in the sequence.",
          final_state := sortFacts s.world,
          final_battery := s.battery_level,
          battery_history := s.battery_history,
          fsm_nodes := s.fsm_nodes,
          fsm_edges := s.fsm_edges }

/-! ## The sequence expander (`auto_expand_sequence`, lines 188-265) -/

/-- Python `int(q)` on a rational: truncation toward zero. -/
def pyInt (q : ℚ) : Int := if q < 0 then ⌈q⌉ else ⌊q⌋

/-- The squared Euclidean distance of line 223.  The source compares
`((ox-rx)**2 + (oy-ry)**2)**0.5` values; since squaring is strictly
monotone on nonnegative reals, comparing squared distances yields exactly
the same `<` comparisons, so the square root is dropped in the rational
model. -/
def sqDist (rx ry x y : ℚ) : ℚ := (x - rx) ^ 2 + (y - ry) ^ 2

/-- The nearest-object fold of lines 220-226 with `min_dist` starting at
infinity: the first object always beats infinity, so the loop is the fold
below starting from the head.  The accumulated `d` is the squared distance
of the current `best`. -/
def findNearestAux (rx ry : ℚ) : List (ℚ × ℚ) → (ℚ × ℚ) → ℚ → (ℚ × ℚ)
  | [], best, _ => best
  | o :: rest, best, d =>
    let d' := sqDist rx ry o.1 o.2
    if d' < d then findNearestAux rx ry rest o d'
    else findNearestAux rx ry rest best d

/-- Lines 219-226: `nearest_obj` after the loop (`none` exactly when the
object list is empty). -/
def findNearest (rx ry : ℚ) : List (ℚ × ℚ) → Option (ℚ × ℚ)
  | [] => none
  | o :: rest => some (findNearestAux rx ry rest o (sqDist rx ry o.1 o.2))

/-- The per-axis insertion loop of lines 238-242 (and 245-249, 254-258):
`fuel` iterations at most; each iteration appends `move` and advances the
coordinate by `step`, breaking once the residual gap to `target` is ≤ 1.
Returns the inserted moves and the final coordinate. -/
def axisLoop (target step : ℚ) (move : String) : Nat → ℚ → List String × ℚ
  | 0, r => ([], r)
  | n + 1, r =>
    let r' := r + step
    if |target - r'| ≤ 1 then ([move], r')
    else
      let rest := axisLoop target step move n r'
      (move :: rest.1, rest.2)

/-- The lateral (x-axis) insertion block of lines 234-249: active only when
`|obj_x - robot_x| > 0.5`; the step count is `max(1, int((gap-1.0)/1.5)+1)`
capped at 5; direction by the sign of the gap. -/
def lateralSteps (objx rx : ℚ) : List String × ℚ :=
  let dist_x := objx - rx
  if 1 / 2 < |dist_x| then
    if 0 < dist_x then
      let steps_x := max 1 (pyInt ((dist_x - 1) / (3 / 2)) + 1)
      axisLoop objx (3 / 2) "moveright" (min steps_x 5).toNat rx
    else
      let steps_x := max 1 (pyInt ((|dist_x| - 1) / (3 / 2)) + 1)
      axisLoop objx (-(3 / 2)) "moveleft" (min steps_x 5).toNat rx
  else ([], rx)

/-- The forward (y-axis) insertion block of lines 251-258: active only when
`obj_y - robot_y > 0.5` (signed, computed before the lateral moves, which
do not change `robot_y`). -/
def forwardSteps (objy ry : ℚ) : List String × ℚ :=
  let dist_y := objy - ry
  if 1 / 2 < dist_y then
    let steps_y := max 1 (pyInt ((dist_y - 1) / (3 / 2)) + 1)
    axisLoop objy (3 / 2) "moveforward" (min steps_y 5).toNat ry
  else ([], ry)

/-- The whole insertion block of lines 228-258 for a chosen target
`(objx, objy)`: lateral steps first, then forward steps; returns the
inserted moves and the updated robot position. -/
def insertForPickup (objx objy rx ry : ℚ) : List String × ℚ × ℚ :=
  let lat := lateralSteps objx rx
  let fwd := forwardSteps objy ry
  (lat.1 ++ fwd.1, (lat.2, fwd.2))

/-- The position update of lines 204-210. -/
def moveDelta (current : String) (rx ry : ℚ) : ℚ × ℚ :=
  if current = "moveforward" then (rx, ry + 3 / 2)
  else if current = "moveleft" then (rx - 3 / 2, ry)
  else if current = "moveright" then (rx + 3 / 2, ry)
  else (rx, ry)

/-- The `while i < len(actions)` loop of lines 200-264: append the current
action, update the dead-reckoned position, and when the next action is
`pickobject` either insert movement toward the nearest manual object
(when manual objects exist) or, when there are none and the current action
is `scanarea`, append two unconditional `moveforward` (legacy branch,
lines 259-262, which does not update the position). -/
def expandLoop (objs : List (ℚ × ℚ)) : List String → ℚ → ℚ → List String
  | [], _, _ => []
  | a :: rest, rx, ry =>
    let current := normAtom a
    let pos := moveDelta current rx ry
    match rest with
    | [] => [a]
    | b :: _ =>
      if normAtom b = "pickobject" then
        if objs ≠ [] then
          match findNearest pos.1 pos.2 objs with
          | some o =>
            let ins := insertForPickup o.1 o.2 pos.1 pos.2
            a :: (ins.1 ++ expandLoop objs rest ins.2.1 ins.2.2)
          | none => a :: expandLoop objs rest pos.1 pos.2
        else if current = "scanarea" then
          a :: "moveforward" :: "moveforward" :: expandLoop objs rest pos.1 pos.2
        else
          a :: expandLoop objs rest pos.1 pos.2
      else
        a :: expandLoop objs rest pos.1 pos.2

/-- `auto_expand_sequence` of lines 188-265 with the default start position
`(1.0, 1.0)`. -/
def auto_expand_sequence (actions : List String) (manual_objects : List (ℚ × ℚ)) :
    List String :=
  expandLoop manual_objects actions 1 1

/-- The `/verify` endpoint of lines 267-461: normalise the `actions` field
(`none` = 400 response), optionally expand, then run the verification. -/
def verifyEndpoint (O : Oracle) (input : ActionsInput)
    (manual_objects : List (ℚ × ℚ)) (auto_expand : Bool) :
    Option (Except Unit Report) :=
  match normalizeActions input with
  | none => none
  | some acts =>
    let acts := if auto_expand then auto_expand_sequence acts manual_objects else acts
    some (verify O acts)

/-! ## The claimed target-selection variant (for comparison)

The specification asserts that each pickup claims its chosen target, so a
later pickup chooses the nearest *unclaimed* one.  The source has no such
bookkeeping: `manual_objects` is never mutated.  The variant below follows
the specification's words and is compared against the source's expander. -/

/-- Modelled from the spec: the expander of spec §4.2 step 1, "pick the
nearest one (Euclidean distance) not already claimed by a prior pickup" —
identical to `expandLoop` except that the chosen target is removed from the
pool before the recursion.  No corresponding code exists in
`src/`: `auto_expand_sequence` never removes a chosen object. -/
def expandLoopClaimed (objs : List (ℚ × ℚ)) : List String → ℚ → ℚ → List String
  | [], _, _ => []
  | a :: rest, rx, ry =>
    let current := normAtom a
    let pos := moveDelta current rx ry
    match rest with
    | [] => [a]
    | b :: _ =>
      if normAtom b = "pickobject" then
        if objs ≠ [] then
          match findNearest pos.1 pos.2 objs with
          | some o =>
            let ins := insertForPickup o.1 o.2 pos.1 pos.2
            a :: (ins.1 ++ expandLoopClaimed (objs.erase o) rest ins.2.1 ins.2.2)
          | none => a :: expandLoopClaimed objs rest pos.1 pos.2
        else if current = "scanarea" then
          a :: "moveforward" :: "moveforward" :: expandLoopClaimed objs rest pos.1 pos.2
        else
          a :: expandLoopClaimed objs rest pos.1 pos.2
      else
        a :: expandLoopClaimed objs rest pos.1 pos.2

/-- Modelled from the spec: `auto_expand_sequence` as the specification
describes it, with per-pickup claiming of targets. -/
def auto_expand_sequence_claimed (actions : List String)
    (manual_objects : List (ℚ × ℚ)) : List String :=
  expandLoopClaimed manual_objects actions 1 1

/-! ## Concrete oracle instances

`rules.pl` is not part of the repository sources, so concrete instances of
the oracle interface are used to run the engine on closed inputs. -/

/-- Modelled from the spec: the action vocabulary of the battery-drain
table of spec §4.3 (the Prolog `action/1` facts of the absent `rules.pl`). -/
def specActions : List String :=
  ["poweron", "poweroff", "scanarea", "moveforward", "moveleft", "moveright",
   "turnleft", "turnright", "pickobject", "releaseobject", "checkbattery", "stop"]

/-- Modelled from the spec: per-action preconditions consistent with
spec §4.1 (initial facts) and the §8 scenario in which
`poweron, scanarea, moveforward, pickobject` validate in order from
`{powered_off, battery_full, object_detected}` (the `precondition/2` facts
of the absent `rules.pl`). -/
def specPre : String → List String
  | "poweron" => ["powered_off"]
  | "poweroff" => ["powered_on"]
  | "scanarea" => ["powered_on"]
  | "moveforward" => ["powered_on"]
  | "moveleft" => ["powered_on"]
  | "moveright" => ["powered_on"]
  | "turnleft" => ["powered_on"]
  | "turnright" => ["powered_on"]
  | "pickobject" => ["powered_on", "object_detected"]
  | "releaseobject" => ["holding_object"]
  | _ => []

/-- Modelled from the spec: the fact mutation a valid action applies
(spec §4.1: for Valid outcomes, `validate` mutates the fact set per the
action's effects; the effect clauses of the absent `rules.pl`). -/
def specEffect (a : String) (st : Finset String) : Finset String :=
  match a with
  | "poweron" => insert "powered_on" (st.erase "powered_off")
  | "poweroff" => insert "powered_off" (st.erase "powered_on")
  | "scanarea" => insert "area_scanned" st
  | "pickobject" => insert "holding_object" (st.erase "object_detected")
  | "releaseobject" => insert "object_detected" (st.erase "holding_object")
  | _ => st

/-- Modelled from the spec: a concrete oracle realising the contract of
spec §4.1 for the absent `rules.pl` — membership by `specActions`,
preconditions by `specPre`, `validate` succeeding (and applying
`specEffect`) exactly when every precondition holds, and the
missing-precondition query filtering `specPre` against the current world. -/
def oracleSpec : Oracle where
  isAction a := .ok (specActions.contains a)
  precondition a := .ok (specPre a)
  validate a st :=
    if (specPre a).all (fun c => decide (c ∈ st)) then .ok ["valid"] (specEffect a st)
    else .ok ["precondition_failed"] st
  missing a st := .ok ((specPre a).filter (fun c => decide (c ∉ st)))

/-- An oracle that accepts every action as valid without touching the
world: used to discharge hypotheses of the shape "every step validates". -/
def oracleAllValid : Oracle where
  isAction _ := .ok true
  precondition _ := .ok []
  validate _ st := .ok ["valid"] st
  missing _ _ := .ok []

/-- An oracle whose action-membership query raises an unexpected
exception. -/
def oracleMembershipExn : Oracle where
  isAction _ := .error ()
  precondition _ := .error ()
  validate _ st := .exn st
  missing _ _ := .error ()

/-- An oracle whose `validate` query raises an unexpected exception while
the other queries answer normally. -/
def oracleValidateExn : Oracle where
  isAction _ := .ok true
  precondition _ := .ok []
  validate _ st := .exn st
  missing _ _ := .ok []

/-- The loop invariant of `verify` maintained by every iteration:
the battery history is the battery column of the step records; prefixing
the initial battery 100 it is non-increasing and ends at the current
battery, which stays within `[0, 100]`; node ids (in both the node list and
the id map) are `0, 1, 2, …` in creation order; the node states mirror the
id-map keys; the id-map keys are pairwise distinct fact sets; and the first
node is the initial node. -/
structure StateInv (s : LoopState) : Prop where
  hist_eq : s.battery_history = s.results.filterMap (·.battery)
  chain : List.Chain' (· ≥ ·) (100 :: s.battery_history)
  last_eq : (100 :: s.battery_history).getLast? = some s.battery_level
  bat_nonneg : 0 ≤ s.battery_level
  bat_le : s.battery_level ≤ 100
  hist_mem : ∀ b ∈ s.battery_history, 0 ≤ b ∧ b ≤ 100
  ids_eq : s.fsm_nodes.map (·.id) = List.range s.node_counter
  map_ids_eq : s.state_id_map.map (·.2) = List.range s.node_counter
  states_eq : s.fsm_nodes.map (·.state) = s.state_id_map.map (fun p => sortFacts p.1)
  keys_nodup : (s.state_id_map.map (·.1)).Nodup
  head_init : s.fsm_nodes.head? = some initNode

/-! ## Helper lemmas about the loop body -/

theorem batteryDrain_nonneg (a r : String) (b : Int) (hb : 0 ≤ b) :
    0 ≤ batteryDrain a r b := by
  unfold batteryDrain
  split
  · split
    · exact le_max_left 0 _
    · split
      · exact le_max_left 0 _
      · exact hb
  · exact hb

theorem batteryDrain_le (a r : String) (b : Int) (hb : 0 ≤ b) :
    batteryDrain a r b ≤ b := by
  unfold batteryDrain
  split
  · split
    · exact max_le hb (by omega)
    · split
      · exact max_le hb (by omega)
      · exact le_refl b
  · exact le_refl b

theorem mapGet_eq_none {m : List (Finset String × Nat)} {k : Finset String} :
    mapGet m k = none ↔ ∀ p ∈ m, p.1 ≠ k := by
  simp [mapGet, List.find?_eq_none]

theorem mapGet_append_self {m : List (Finset String × Nat)} {k : Finset String}
    {c : Nat} (hN : mapGet m k = none) : mapGet (m ++ [(k, c)]) k = some c := by
  have hf : m.find? (fun p => p.1 = k) = none := by
    simpa [mapGet] using hN
  simp [mapGet, List.find?_append, hf]

theorem nodeUpsert_absent {m : List (Finset String × Nat)} {nodes : List FsmNode}
    {c : Nat} {k : Finset String} {stp : Nat} {res : String}
    (hN : mapGet m k = none) :
    nodeUpsert m nodes c k stp res =
      (m ++ [(k, c)],
       nodes ++ [{ id := c,
                   label := "S" ++ toString c ++ ": " ++ state_to_label k,
                   state := sortFacts k,
                   step := stp,
                   type := if res = "valid" then "valid" else "invalid" }],
       c + 1) := by
  simp [nodeUpsert, hN]

theorem nodeUpsert_present {m : List (Finset String × Nat)} {nodes : List FsmNode}
    {c v : Nat} {k : Finset String} {stp : Nat} {res : String}
    (hN : mapGet m k = some v) :
    nodeUpsert m nodes c k stp res = (m, nodes, c) := by
  simp [nodeUpsert, hN]

theorem stateInv_initial : StateInv initialLoopState := by
  refine ⟨rfl, ?_, rfl, by decide, by decide, by simp [initialLoopState], rfl, rfl,
    rfl, by simp [initialLoopState], rfl⟩
  exact List.chain'_singleton _

theorem stateInv_unknownStep {s : LoopState} (atom : String) (h : StateInv s) :
    StateInv (unknownStep s atom) := by
  obtain ⟨h1, h2, h3, h4, h5, h6, h7, h8, h9, h10, h11⟩ := h
  refine ⟨?_, h2, h3, h4, h5, h6, h7, h8, h9, h10, h11⟩
  simp [unknownStep, List.filterMap_append, h1]

theorem stateInv_knownStep {s : LoopState} (stp : Nat) (atom : String)
    (ps : List String) (res : String) (w1 : Finset String) (ms : List String)
    (h : StateInv s) : StateInv (knownStep s stp atom ps res w1 ms) := by
  obtain ⟨h1, h2, h3, h4, h5, h6, h7, h8, h9, h10, h11⟩ := h
  have hb0 : 0 ≤ batteryDrain atom res s.battery_level :=
    batteryDrain_nonneg atom res s.battery_level h4
  have hble : batteryDrain atom res s.battery_level ≤ s.battery_level :=
    batteryDrain_le atom res s.battery_level h4
  have hb100 : batteryDrain atom res s.battery_level ≤ 100 := le_trans hble h5
  have hchain : List.Chain' (· ≥ ·)
      (100 :: (s.battery_history ++ [batteryDrain atom res s.battery_level])) := by
    rw [show (100 :: (s.battery_history ++ [batteryDrain atom res s.battery_level]))
          = (100 :: s.battery_history) ++ [batteryDrain atom res s.battery_level]
        from rfl]
    refine List.chain'_append.mpr ⟨h2, List.chain'_singleton _, ?_⟩
    intro x hx y hy
    simp only [h3, Option.mem_def, Option.some.injEq] at hx
    simp only [List.head?_cons, Option.mem_def, Option.some.injEq] at hy
    subst hx
    subst hy
    exact hble
  have hnodes : ∀ hN : True,
      ((nodeUpsert s.state_id_map s.fsm_nodes s.node_counter w1 stp res).2.1.map (·.id)
          = List.range (nodeUpsert s.state_id_map s.fsm_nodes s.node_counter w1 stp res).2.2) ∧
      ((nodeUpsert s.state_id_map s.fsm_nodes s.node_counter w1 stp res).1.map (·.2)
          = List.range (nodeUpsert s.state_id_map s.fsm_nodes s.node_counter w1 stp res).2.2) ∧
      ((nodeUpsert s.state_id_map s.fsm_nodes s.node_counter w1 stp res).2.1.map (·.state)
          = (nodeUpsert s.state_id_map s.fsm_nodes s.node_counter w1 stp res).1.map
              (fun p => sortFacts p.1)) ∧
      ((nodeUpsert s.state_id_map s.fsm_nodes s.node_counter w1 stp res).1.map (·.1)).Nodup ∧
      ((nodeUpsert s.state_id_map s.fsm_nodes s.node_counter w1 stp res).2.1.head?
          = some initNode) := by
    intro _
    cases hN : mapGet s.state_id_map w1 with
    | none =>
      rw [nodeUpsert_absent hN]
      have hknotin : w1 ∉ s.state_id_map.map (·.1) := by
        intro hmem
        obtain ⟨p, hp, hp1⟩ := List.mem_map.mp hmem
        exact (mapGet_eq_none.mp hN p hp) hp1
      have hne : s.fsm_nodes ≠ [] := by
        intro hnil
        rw [hnil] at h11
        simp at h11
      refine ⟨?_, ?_, ?_, ?_, ?_⟩
      · simp [List.map_append, h7, List.range_succ]
      · simp [List.map_append, h8, List.range_succ]
      · simp [List.map_append, h9]
      · simp only [List.map_append]
        rw [List.nodup_append]
        refine ⟨h10, List.nodup_singleton _, ?_⟩
        intro x hx hx'
        simp only [List.map_cons, List.map_nil, List.mem_singleton] at hx'
        subst hx'
        exact hknotin hx
      · cases hcs : s.fsm_nodes with
        | nil => exact absurd hcs hne
        | cons hd tl =>
          rw [hcs] at h11
          simp only [List.cons_append, List.head?_cons] at h11 ⊢
          exact h11
    | some v =>
      rw [nodeUpsert_present hN]
      exact ⟨h7, h8, h9, h10, h11⟩
  obtain ⟨g7, g8, g9, g10, g11⟩ := hnodes trivial
  refine ⟨?_, hchain, List.getLast?_concat (100 :: s.battery_history), hb0, hb100,
    ?_, g7, g8, g9, g10, g11⟩
  · simp [knownStep, List.filterMap_append, h1]
  · intro b hb
    rw [show (knownStep s stp atom ps res w1 ms).battery_history
          = s.battery_history ++ [batteryDrain atom res s.battery_level] from rfl] at hb
    rcases List.mem_append.mp hb with hb' | hb'
    · exact h6 b hb'
    · simp only [List.mem_singleton] at hb'
      subst hb'
      exact ⟨hb0, hb100⟩

/-- Case analysis for a successful loop iteration: either the membership
check answered false and the iteration is `unknownStep`, or it answered
true and the iteration is `knownStep` on the oracle's answers. -/
theorem stepAction_ok_elim {O : Oracle} {stp : Nat} {s s' : LoopState}
    {a : String} (h : stepAction O stp s a = .ok s') :
    (O.isAction (normAtom a) = .ok false ∧ s' = unknownStep s (normAtom a)) ∨
    (O.isAction (normAtom a) = .ok true ∧ ∃ ps ms,
       O.precondition (normAtom a) = .ok ps ∧
       O.missing (normAtom a)
         (validateOutcome (O.validate (normAtom a) s.world)).2 = .ok ms ∧
       s' = knownStep s stp (normAtom a) ps
              (validateOutcome (O.validate (normAtom a) s.world)).1
              (validateOutcome (O.validate (normAtom a) s.world)).2 ms) := by
  simp only [stepAction] at h
  split at h
  · simp at h
  · rename_i known heq
    split at h
    · rename_i hknown
      have hk : known = false := by
        revert hknown
        cases known <;> simp
      subst hk
      injection h with h
      exact Or.inl ⟨heq, h.symm⟩
    · rename_i hknown
      have hk : known = true := by
        revert hknown
        cases known <;> simp
      subst hk
      split at h
      · simp at h
      · rename_i ps heqP
        split at h
        · simp at h
        · rename_i ms heqM
          injection h with h
          exact Or.inr ⟨heq, ps, ms, heqP, heqM, h.symm⟩

theorem stateInv_stepAction {O : Oracle} {stp : Nat} {s s' : LoopState}
    {a : String} (h : stepAction O stp s a = .ok s') (hs : StateInv s) :
    StateInv s' := by
  rcases stepAction_ok_elim h with ⟨-, rfl⟩ | ⟨-, ps, ms, -, -, rfl⟩
  · exact stateInv_unknownStep _ hs
  · exact stateInv_knownStep _ _ _ _ _ _ hs

theorem stateInv_runLoop {O : Oracle} :
    ∀ (acts : List String) (stp : Nat) (s s' : LoopState),
      runLoop O acts stp s = .ok s' → StateInv s → StateInv s'
  | [], _, s, s', h, hs => by
    simp only [runLoop, Except.ok.injEq] at h
    exact h ▸ hs
  | a :: rest, stp, s, s', h, hs => by
    simp only [runLoop] at h
    cases hA : stepAction O stp s a with
    | error e => rw [hA] at h; exact absurd h (by simp)
    | ok s1 =>
      rw [hA] at h
      exact stateInv_runLoop rest (stp + 1) s1 s' h (stateInv_stepAction hA hs)

/-- A successful `verify` run exposes a final loop state satisfying the
invariant, with the report fields projected from it. -/
theorem verify_ok_elim {O : Oracle} {acts : List String} {r : Report}
    (h : verify O acts = .ok r) :
    ∃ s : LoopState, StateInv s ∧
      r.validation = s.results ∧
      r.battery_history = s.battery_history ∧
      r.final_battery = s.battery_level ∧
      r.fsm_nodes = s.fsm_nodes ∧
      r.fsm_edges = s.fsm_edges ∧
      r.summary = (if s.all_valid then "VALID SEQUENCE" else "INVALID SEQUENCE") := by
  simp only [verify] at h
  cases hR : runLoop O acts 1 initialLoopState with
  | error e => rw [hR] at h; exact absurd h (by simp)
  | ok s =>
    rw [hR] at h
    simp only [Except.ok.injEq] at h
    refine ⟨s, stateInv_runLoop acts 1 initialLoopState s hR stateInv_initial,
      ?_, ?_, ?_, ?_, ?_, ?_⟩ <;> rw [← h]

/-! ## Claim C1 -/

/-- C1, counterexample: on the run `verify` with the single unknown action
`"flyaway"`, one action is processed (one step record) but
`battery_history` is empty — the `continue` of line 340 skips the
`battery_history.append` of line 397 — so the claimed equality
`len(battery_history) == len(processed actions)` is false on this run. -/
theorem C1_counterexample :
    (verify oracleSpec ["flyaway"]).map
      (fun r => decide (r.battery_history.length = r.validation.length)) =
      .ok false := by
  with_unfolding_all decide

/-! ## Claim C2 -/

/-- C2, counterexample: for the request `actions=[42]`, list normalisation
(line 276) renders the non-string element with `str`, so the step is
processed as the ordinary token `"42"` and recorded with result
`"invalid_action"` — not `"invalid_format"`, a result string the code never
produces. -/
theorem C2_counterexample :
    (verifyEndpoint oracleSpec (.list [PyVal.i 42]) [] true).map
      (fun e => e.map (fun r => r.validation.map (·.result))) =
      some (.ok ["invalid_action"]) ∧
    "invalid_action" ≠ "invalid_format" := by
  constructor
  · with_unfolding_all decide
  · decide

/-- C2, amended: for `actions=[42]` the element is stringified to `"42"` by
normalisation, the action-membership oracle query is made and answers
false, the step is recorded as `invalid_action` with unchanged world state
(`from_state = to_state =` the initial facts), the battery is unchanged
(final battery 100; no history entry is appended for the step), and the
run is marked invalid overall. -/
theorem C2_amended_thm :
    verifyEndpoint oracleSpec (.list [PyVal.i 42]) [] true =
      some (verify oracleSpec ["42"]) ∧
    (verify oracleSpec ["42"]).map
      (fun r => (r.validation.map (·.result), r.final_battery,
                 r.battery_history, r.summary)) =
      .ok (["invalid_action"], 100, [], "INVALID SEQUENCE") ∧
    (verify oracleSpec ["42"]).map
      (fun r => (r.validation.map (·.from_state), r.validation.map (·.to_state))) =
      .ok ([sortFacts initFacts], [sortFacts initFacts]) := by
  refine ⟨?_, ?_, ?_⟩
  · with_unfolding_all decide
  · with_unfolding_all decide
  · with_unfolding_all decide

/-! ## Claim C3 -/

/-- C3, counterexample: on the run `verify` with the single unknown action
`"flyaway"`, one action is processed (one step record), yet no FSM edge is
appended: the `continue` of line 340 skips the edge creation of
lines 419-427, so the claimed "exactly one edge per processed action,
including invalid ones" is false. -/
theorem C3_counterexample :
    (verify oracleSpec ["flyaway"]).map
      (fun r => (r.fsm_edges, r.validation.length)) = .ok ([], 1) := by
  with_unfolding_all decide

/-! ## Claim C4 -/

/-- C4, counterexample: an unexpected exception in the per-step
action-membership query is *not* caught — only the `validate` query sits in
the `try`/`except` of lines 354-363 — so the exception escapes and the run
aborts with no step recorded, contradicting the claim for that query
kind. -/
theorem C4_counterexample :
    verify oracleMembershipExn ["poweron"] = .error () := by
  rfl

/-- C4, amended: only the `validate` oracle query's exceptions are caught:
when `validate` raises, the step is recorded with result
`"error_processing"` and the loop continues with the remaining actions
(lines 353-363); exceptions raised by the membership, precondition-listing
or missing-precondition queries propagate and abort the run, as the
counterexample above shows. -/
theorem C4_amended_thm (O : Oracle) (stp : Nat) (s : LoopState) (a : String)
    (rest : List String) (ps ms : List String) (st' : Finset String)
    (h1 : O.isAction (normAtom a) = .ok true)
    (h2 : O.precondition (normAtom a) = .ok ps)
    (h3 : O.validate (normAtom a) s.world = .exn st')
    (h4 : O.missing (normAtom a) st' = .ok ms) :
    stepAction O stp s a =
      .ok (knownStep s stp (normAtom a) ps "error_processing" st' ms) ∧
    (knownStep s stp (normAtom a) ps "error_processing" st' ms).results.map (·.result)
      = s.results.map (·.result) ++ ["error_processing"] ∧
    runLoop O (a :: rest) stp s =
      runLoop O rest (stp + 1)
        (knownStep s stp (normAtom a) ps "error_processing" st' ms) := by
  have hstep : stepAction O stp s a =
      .ok (knownStep s stp (normAtom a) ps "error_processing" st' ms) := by
    simp only [stepAction, h1, h2, h3, h4, validateOutcome]
    simp
  refine ⟨hstep, ?_, ?_⟩
  · simp [knownStep]
  · simp [runLoop, hstep]

/-- C4, witness for the amended theorem: the hypotheses hold concretely for
`oracleValidateExn` at the initial loop state with action `"poweron"`. -/
theorem C4_amended_witness :
    stepAction oracleValidateExn 1 initialLoopState "poweron" =
      .ok (knownStep initialLoopState 1 (normAtom "poweron") []
        "error_processing" initFacts []) ∧
    (knownStep initialLoopState 1 (normAtom "poweron") []
        "error_processing" initFacts []).results.map (·.result)
      = initialLoopState.results.map (·.result) ++ ["error_processing"] ∧
    runLoop oracleValidateExn ["poweron", "stop"] 1 initialLoopState =
      runLoop oracleValidateExn ["stop"] (1 + 1)
        (knownStep initialLoopState 1 (normAtom "poweron") []
          "error_processing" initFacts []) :=
  C4_amended_thm oracleValidateExn 1 initialLoopState "poweron" ["stop"]
    [] [] initFacts rfl rfl rfl rfl

/-- C1, amended: the battery history is exactly the battery column of the
step records — one entry per processed action that passes the
action-membership check (the unknown-action record carries no battery field
and, via the `continue` of line 340, appends no history entry) — and the
history is non-increasing.  The second and third conjuncts state the
per-iteration bookkeeping for the two kinds of step. -/
theorem C1_amended_thm :
    (∀ (O : Oracle) (acts : List String) (r : Report), verify O acts = .ok r →
       r.battery_history = r.validation.filterMap (·.battery) ∧
       List.Chain' (· ≥ ·) r.battery_history) ∧
    (∀ (s : LoopState) (atom : String),
       (unknownStep s atom).battery_history = s.battery_history ∧
       (unknownStep s atom).results.map (·.battery)
         = s.results.map (·.battery) ++ [none]) ∧
    (∀ (s : LoopState) (stp : Nat) (atom : String) (ps : List String)
       (res : String) (w1 : Finset String) (ms : List String),
       (knownStep s stp atom ps res w1 ms).battery_history
         = s.battery_history ++ [batteryDrain atom res s.battery_level] ∧
       (knownStep s stp atom ps res w1 ms).results.map (·.battery)
         = s.results.map (·.battery)
             ++ [some (batteryDrain atom res s.battery_level)]) := by
  refine ⟨?_, ?_, ?_⟩
  · intro O acts r h
    obtain ⟨s, hinv, hval, hbh, -, -, -, -⟩ := verify_ok_elim h
    constructor
    · rw [hbh, hval, hinv.hist_eq]
    · rw [hbh]
      exact hinv.chain.tail
  · intro s atom
    exact ⟨rfl, by simp [unknownStep]⟩
  · intro s stp atom ps res w1 ms
    exact ⟨rfl, by simp [knownStep]⟩

/-- C1, witness for the amended theorem: on a concrete run with one known
and one unknown action the history equals the battery column of the
records. -/
theorem C1_amended_witness :
    (verify oracleSpec ["poweron", "flyaway"]).map
      (fun r => decide (r.battery_history = r.validation.filterMap (·.battery)))
      = .ok true := by
  cases h : verify oracleSpec ["poweron", "flyaway"] with
  | error e =>
    cases e
    exact absurd h (by with_unfolding_all decide)
  | ok r =>
    have hr := (C1_amended_thm.1 oracleSpec ["poweron", "flyaway"] r h).1
    simp only [Except.map, Except.ok.injEq, decide_eq_true_eq]
    exact hr

/-! ## Claim C3, amended part -/

theorem mapGet_nodeUpsert_self (m : List (Finset String × Nat))
    (nodes : List FsmNode) (c : Nat) (k : Finset String) (stp : Nat)
    (res : String) :
    mapGet (nodeUpsert m nodes c k stp res).1 k =
      some ((mapGet (nodeUpsert m nodes c k stp res).1 k).getD 0) := by
  cases hN : mapGet m k with
  | none =>
    rw [nodeUpsert_absent hN, mapGet_append_self hN]
    rfl
  | some v =>
    rw [nodeUpsert_present hN, hN]
    rfl

/-- C3, amended: an FSM edge is appended exactly for the actions that pass
the membership check — one edge per such action, from the pre-step node id
to the post-step node id, labeled with the action and the validity of the
validate outcome; an action failing the membership check appends no edge
(the `continue` of line 340). -/
theorem C3_amended_thm (O : Oracle) (stp : Nat) (s : LoopState) (a : String)
    (s' : LoopState) (h : stepAction O stp s a = .ok s') :
    (O.isAction (normAtom a) = .ok false → s'.fsm_edges = s.fsm_edges) ∧
    (O.isAction (normAtom a) = .ok true →
      ∃ e : FsmEdge,
        s'.fsm_edges = s.fsm_edges ++ [e] ∧
        e.fromId = mapGet s.state_id_map s.current_state ∧
        e.label = normAtom a ∧
        e.action = normAtom a ∧
        e.step = stp ∧
        e.valid = ((validateOutcome (O.validate (normAtom a) s.world)).1 == "valid") ∧
        mapGet s'.state_id_map s'.current_state = some e.toId) := by
  rcases stepAction_ok_elim h with ⟨hA, rfl⟩ | ⟨hA, ps, ms, hP, hM, rfl⟩
  · refine ⟨fun _ => rfl, fun htrue => absurd (hA.symm.trans htrue) (by simp)⟩
  · constructor
    · intro hfalse
      exact absurd (hA.symm.trans hfalse) (by simp)
    · intro _
      refine ⟨_, rfl, rfl, rfl, rfl, rfl, rfl, ?_⟩
      exact mapGet_nodeUpsert_self s.state_id_map s.fsm_nodes s.node_counter
        (validateOutcome (O.validate (normAtom a) s.world)).2 stp
        (validateOutcome (O.validate (normAtom a) s.world)).1

/-- C3, witness for the amended theorem: a concrete known-action step
appends exactly one edge. -/
theorem C3_amended_witness :
    (stepAction oracleSpec 1 initialLoopState "poweron").map
      (fun s' => s'.fsm_edges.length) = .ok 1 := by
  cases h : stepAction oracleSpec 1 initialLoopState "poweron" with
  | error e =>
    cases e
    exact absurd h (by with_unfolding_all decide)
  | ok s' =>
    obtain ⟨-, h2⟩ := C3_amended_thm oracleSpec 1 initialLoopState "poweron" s' h
    obtain ⟨e, he, -⟩ := h2 (by with_unfolding_all decide)
    simp [Except.map, he, initialLoopState]

/-! ## Claim C5 -/

/-- C5: in every successful run, the battery starts at 100 and the history
prefixed with 100 is non-increasing (so the battery never increases), every
recorded level lies in `[0, 100]`, and the final battery lies in
`[0, 100]`. -/
theorem C5_thm (O : Oracle) (acts : List String) (r : Report)
    (h : verify O acts = .ok r) :
    List.Chain' (· ≥ ·) (100 :: r.battery_history) ∧
    (∀ b ∈ r.battery_history, 0 ≤ b ∧ b ≤ 100) ∧
    0 ≤ r.final_battery ∧ r.final_battery ≤ 100 := by
  obtain ⟨s, hinv, -, hbh, hfb, -, -, -⟩ := verify_ok_elim h
  rw [hbh, hfb]
  exact ⟨hinv.chain, hinv.hist_mem, hinv.bat_nonneg, hinv.bat_le⟩

/-- C5, witness: the battery bounds hold on a concrete run. -/
theorem C5_witness :
    (verify oracleSpec ["poweron", "scanarea"]).map
      (fun r => (decide (List.Chain' (· ≥ ·) (100 :: r.battery_history)),
                 decide (0 ≤ r.final_battery ∧ r.final_battery ≤ 100)))
      = .ok (true, true) := by
  cases h : verify oracleSpec ["poweron", "scanarea"] with
  | error e =>
    cases e
    exact absurd h (by with_unfolding_all decide)
  | ok r =>
    obtain ⟨h1, -, h3, h4⟩ := C5_thm oracleSpec ["poweron", "scanarea"] r h
    simp only [Except.map, Except.ok.injEq, Prod.mk.injEq, decide_eq_true_eq]
    exact ⟨h1, h3, h4⟩

/-! ## Claim C6 -/

/-- C6: per step, battery drain is applied exactly when the recorded result
is `"valid"`, with 20 for the move/turn class, 10 for the
scan/pick/release class and 0 otherwise, floored at 0; and on the scenario
`["poweron", "scanarea", "moveforward", "pickobject"]` with every validate
answering `"valid"`, the per-step battery history is `[100, 90, 70, 60]`. -/
theorem C6_thm :
    (∀ (O : Oracle) (stp : Nat) (s s' : LoopState) (a : String),
       stepAction O stp s a = .ok s' →
       ∃ rec, s'.results = s.results ++ [rec] ∧
         s'.battery_level =
           (if rec.result = "valid" then
              if rec.action ∈ ["moveforward", "moveleft", "moveright",
                  "turnleft", "turnright"] then
                max 0 (s.battery_level - 20)
              else if rec.action ∈ ["scanarea", "pickobject", "releaseobject"] then
                max 0 (s.battery_level - 10)
              else s.battery_level
            else s.battery_level)) ∧
    (∀ (O : Oracle) (fp : String → List String)
       (fe : String → Finset String → Finset String)
       (fm : String → Finset String → List String),
       (∀ x, O.isAction x = .ok true) →
       (∀ x, O.precondition x = .ok (fp x)) →
       (∀ x st, O.validate x st = .ok ["valid"] (fe x st)) →
       (∀ x st, O.missing x st = .ok (fm x st)) →
       (verify O ["poweron", "scanarea", "moveforward", "pickobject"]).map
         (·.battery_history) = .ok [100, 90, 70, 60]) := by
  constructor
  · intro O stp s s' a h
    rcases stepAction_ok_elim h with ⟨-, rfl⟩ | ⟨-, ps, ms, -, -, rfl⟩
    · refine ⟨_, rfl, ?_⟩
      simp [unknownStep]
    · refine ⟨_, rfl, ?_⟩
      rfl
  · intro O fp fe fm h1 h2 h3 h4
    have e1 : normAtom "poweron" = "poweron" := by with_unfolding_all decide
    have e2 : normAtom "scanarea" = "scanarea" := by with_unfolding_all decide
    have e3 : normAtom "moveforward" = "moveforward" := by with_unfolding_all decide
    have e4 : normAtom "pickobject" = "pickobject" := by with_unfolding_all decide
    simp only [verify, runLoop, stepAction, e1, e2, e3, e4, h1, h2, h3, h4,
      validateOutcome, knownStep, batteryDrain, initialLoopState]
    norm_num [Except.map]
    with_unfolding_all decide

/-- C6, witness: the scenario hypotheses hold for the all-valid oracle, and
the history is `[100, 90, 70, 60]`. -/
theorem C6_witness :
    (verify oracleAllValid ["poweron", "scanarea", "moveforward", "pickobject"]).map
      (·.battery_history) = .ok [100, 90, 70, 60] :=
  C6_thm.2 oracleAllValid (fun _ => []) (fun _ st => st) (fun _ _ => [])
    (fun _ => rfl) (fun _ => rfl) (fun _ _ => rfl) (fun _ _ => rfl)

/-! ## Claim C7 -/

/-- C7: in every successful run, node ids are assigned in creation order
`0, 1, 2, …` (id 0 being the initial node), no two nodes carry the same
fact set (so any two snapshots with identical fact members map to the same
node id — states are compared as sets, which makes discovery order
irrelevant by construction), and the first node is the initial node. -/
theorem C7_thm (O : Oracle) (acts : List String) (r : Report)
    (h : verify O acts = .ok r) :
    r.fsm_nodes.map (·.id) = List.range r.fsm_nodes.length ∧
    (r.fsm_nodes.map (·.state)).Nodup ∧
    (∀ n1 ∈ r.fsm_nodes, ∀ n2 ∈ r.fsm_nodes, n1.state = n2.state → n1 = n2) ∧
    r.fsm_nodes.head? = some initNode := by
  obtain ⟨s, hinv, -, -, -, hn, -, -⟩ := verify_ok_elim h
  rw [hn]
  have hlen : s.fsm_nodes.length = s.node_counter := by
    have hc := congrArg List.length hinv.ids_eq
    simpa using hc
  have hidseq : s.fsm_nodes.map (·.id) = List.range s.fsm_nodes.length := by
    rw [hlen]
    exact hinv.ids_eq
  have hinj : Function.Injective sortFacts := by
    intro x y hxy
    have hx := Finset.sort_toFinset (α := String) (· ≤ ·) x
    have hy := Finset.sort_toFinset (α := String) (· ≤ ·) y
    rw [← hx, ← hy]
    unfold sortFacts at hxy
    rw [hxy]
  have hnodup : (s.fsm_nodes.map (·.state)).Nodup := by
    rw [hinv.states_eq,
      show (fun p : Finset String × Nat => sortFacts p.1)
        = sortFacts ∘ (fun p : Finset String × Nat => p.1) from rfl,
      ← List.map_map]
    exact hinv.keys_nodup.map hinj
  refine ⟨hidseq, hnodup, ?_, hinv.head_init⟩
  intro n1 hn1 n2 hn2 hstate
  exact List.inj_on_of_nodup_map hnodup hn1 hn2 hstate

/-- C7, witness: the node-table properties hold on a concrete run. -/
theorem C7_witness :
    (verify oracleSpec ["poweron"]).map
      (fun r => (decide (r.fsm_nodes.map (·.id) = List.range r.fsm_nodes.length),
                 decide ((r.fsm_nodes.map (·.state)).Nodup),
                 decide (r.fsm_nodes.head? = some initNode)))
      = .ok (true, true, true) := by
  cases h : verify oracleSpec ["poweron"] with
  | error e =>
    cases e
    exact absurd h (by with_unfolding_all decide)
  | ok r =>
    obtain ⟨h1, h2, -, h4⟩ := C7_thm oracleSpec ["poweron"] r h
    simp only [Except.map, Except.ok.injEq, Prod.mk.injEq, decide_eq_true_eq]
    exact ⟨h1, h2, h4⟩

/-! ## Claim C10 -/

/-- C10: the missing-precondition query that `precondition_met` is derived
from is made against the world state `validate` has already mutated (the
source queries it at lines 366-367, after the validate call of lines
353-363), so the recorded `precondition_met` is `missing(action, post-state)
= ∅` — not a property of the state-before snapshot; consequently, on
`oracleSpec` the single action `"poweron"` validates as `"valid"` yet is
recorded with `precondition_met = false`, its own effect having falsified
its precondition `powered_off`. -/
theorem C10_thm :
    (∀ (O : Oracle) (stp : Nat) (s : LoopState) (a : String)
       (ps res : List String) (st' : Finset String) (ms : List String),
       O.isAction (normAtom a) = .ok true →
       O.precondition (normAtom a) = .ok ps →
       O.validate (normAtom a) s.world = .ok res st' →
       O.missing (normAtom a) st' = .ok ms →
       ∃ s', stepAction O stp s a = .ok s' ∧
         s'.world = st' ∧
         s'.results.map (·.precondition_met)
           = s.results.map (·.precondition_met) ++ [ms.isEmpty]) ∧
    (verify oracleSpec ["poweron"]).map
      (fun r => r.validation.map (fun rec => (rec.result, rec.precondition_met)))
      = .ok [("valid", false)] := by
  constructor
  · intro O stp s a ps res st' ms h1 h2 h3 h4
    refine ⟨knownStep s stp (normAtom a) ps (res.headD "invalid_action") st' ms,
      ?_, rfl, ?_⟩
    · simp only [stepAction, h1, h2, h3, h4, validateOutcome]
      simp
    · simp [knownStep]
  · with_unfolding_all decide

/-- C10, witness: the hypotheses of the general part hold concretely for
`oracleSpec` on `"poweron"` at the initial state. -/
theorem C10_witness :
    (stepAction oracleSpec 1 initialLoopState "poweron").map
      (fun s' => s'.results.map (·.precondition_met)) = .ok [false] := by
  obtain ⟨s', hs, -, hmap⟩ := C10_thm.1 oracleSpec 1 initialLoopState "poweron"
    ["powered_off"] ["valid"] (specEffect "poweron" initFacts) ["powered_off"]
    (by with_unfolding_all decide) (by with_unfolding_all decide)
    (by with_unfolding_all decide) (by with_unfolding_all decide)
  rw [hs]
  simp only [Except.map]
  rw [hmap]
  simp [initialLoopState]

/-! ## Claim C9 -/

/-- C9, counterexample: the source's expander never claims targets —
`manual_objects` is never mutated (lines 217-229) — so with two objects and
two pickups both selections pick the same nearest object `(1, 5/2)`; the
spec-modelled claiming variant instead sends the second pickup toward the
still-unclaimed `(1, 100)` and inserts five forward steps.  The two
expansions differ on this input, refuting the claimed selection rule. -/
theorem C9_counterexample :
    auto_expand_sequence ["stop", "pickobject", "stop", "pickobject"]
        [(1, 5/2), (1, 100)] =
      ["stop", "moveforward", "pickobject", "stop", "pickobject"] ∧
    auto_expand_sequence_claimed ["stop", "pickobject", "stop", "pickobject"]
        [(1, 5/2), (1, 100)] =
      ["stop", "moveforward", "pickobject", "stop", "moveforward", "moveforward",
       "moveforward", "moveforward", "moveforward", "pickobject"] := by
  constructor
  · with_unfolding_all decide
  · with_unfolding_all decide

/-! ## Claim C8 -/

theorem axisLoop_length_le (t st : ℚ) (mv : String) :
    ∀ (n : Nat) (r : ℚ), (axisLoop t st mv n r).1.length ≤ n
  | 0, r => by simp [axisLoop]
  | n + 1, r => by
    simp only [axisLoop]
    split
    · simp
    · have := axisLoop_length_le t st mv n (r + st)
      simp only [List.length_cons]
      omega

theorem axisLoop_mem (t st : ℚ) (mv : String) :
    ∀ (n : Nat) (r : ℚ) (m : String), m ∈ (axisLoop t st mv n r).1 → m = mv
  | 0, r, m => by simp [axisLoop]
  | n + 1, r, m => by
    simp only [axisLoop]
    split
    · simp
    · intro hm
      rcases List.mem_cons.mp hm with rfl | hm'
      · rfl
      · exact axisLoop_mem t st mv n (r + st) m hm'

theorem axisLoop_ne_nil (t st : ℚ) (mv : String) (n : Nat) (r : ℚ)
    (h : 0 < n) : (axisLoop t st mv n r).1 ≠ [] := by
  cases n with
  | zero => omega
  | succ n' =>
    simp only [axisLoop]
    split
    · simp
    · simp

/-- The loop of lines 238-242 (and its mirror images) stops early: if it
performed a `(k+1)`-th iteration, then after the `k`-th the residual gap to
the target still exceeded 1. -/
theorem axisLoop_early_stop (t st : ℚ) (mv : String) :
    ∀ (n : Nat) (r : ℚ) (k : Nat), 0 < k → k < (axisLoop t st mv n r).1.length →
      1 < |t - (r + k * st)|
  | 0, r, k => by
    intro hk hlen
    simp [axisLoop] at hlen
  | n + 1, r, k => by
    simp only [axisLoop]
    split
    · intro hk hlen
      simp at hlen
      omega
    · rename_i hgt
      intro hk hlen
      simp only [List.length_cons] at hlen
      rcases k with - | k'
      · omega
      · rcases k' with - | k''
        · have h1 : 1 < |t - (r + st)| := not_le.mp hgt
          have harith : r + ((0 + 1 : ℕ) : ℚ) * st = r + st := by
            push_cast
            ring
          rw [harith]
          exact h1
        · have hlen' : k'' + 1 < (axisLoop t st mv n (r + st)).1.length := by omega
          have hrec := axisLoop_early_stop t st mv n (r + st) (k'' + 1)
            (by omega) hlen'
          have harith : t - (r + st + ((k'' + 1 : ℕ) : ℚ) * st)
              = t - (r + ((k'' + 1 + 1 : ℕ) : ℚ) * st) := by
            push_cast
            ring
          rw [harith] at hrec
          exact hrec

/-- C8: for a chosen pickup target, the inserted block is the lateral
moves followed by the forward moves; lateral moves are inserted exactly
when `|Δx| > 0.5`, number at most 5, all go in the direction of the sign of
`Δx`, and stop early once the residual x-gap is ≤ 1 (every iteration short
of the last still saw a gap > 1); forward moves are inserted exactly when
`Δy > 0.5`, number at most 5, are all `moveforward`, and stop early
analogously. -/
theorem C8_thm (objx objy rx ry : ℚ) :
    (insertForPickup objx objy rx ry).1
      = (lateralSteps objx rx).1 ++ (forwardSteps objy ry).1 ∧
    (|objx - rx| ≤ 1 / 2 → (lateralSteps objx rx).1 = []) ∧
    (1 / 2 < |objx - rx| → (lateralSteps objx rx).1 ≠ []) ∧
    (lateralSteps objx rx).1.length ≤ 5 ∧
    (0 < objx - rx → ∀ m ∈ (lateralSteps objx rx).1, m = "moveright") ∧
    (objx - rx < 0 → ∀ m ∈ (lateralSteps objx rx).1, m = "moveleft") ∧
    (0 < objx - rx → ∀ k : Nat, 0 < k → k < (lateralSteps objx rx).1.length →
       1 < |objx - (rx + k * (3 / 2))|) ∧
    (objx - rx < 0 → ∀ k : Nat, 0 < k → k < (lateralSteps objx rx).1.length →
       1 < |objx - (rx + k * (-(3 / 2)))|) ∧
    (objy - ry ≤ 1 / 2 → (forwardSteps objy ry).1 = []) ∧
    (1 / 2 < objy - ry → (forwardSteps objy ry).1 ≠ []) ∧
    (forwardSteps objy ry).1.length ≤ 5 ∧
    (∀ m ∈ (forwardSteps objy ry).1, m = "moveforward") ∧
    (∀ k : Nat, 0 < k → k < (forwardSteps objy ry).1.length →
       1 < |objy - (ry + k * (3 / 2))|) := by
  have hfuel5 : ∀ z : Int, (min (max 1 z) 5).toNat ≤ 5 := by
    intro z
    omega
  have hfuel1 : ∀ z : Int, 0 < (min (max 1 z) 5).toNat := by
    intro z
    omega
  refine ⟨rfl, ?_, ?_, ?_, ?_, ?_, ?_, ?_, ?_, ?_, ?_, ?_, ?_⟩
  · intro h
    simp only [lateralSteps]
    rw [if_neg (not_lt.mpr h)]
  · intro h
    simp only [lateralSteps]
    rw [if_pos h]
    split
    · exact axisLoop_ne_nil _ _ _ _ _ (hfuel1 _)
    · exact axisLoop_ne_nil _ _ _ _ _ (hfuel1 _)
  · simp only [lateralSteps]
    split
    · split
      · exact le_trans (axisLoop_length_le _ _ _ _ _) (hfuel5 _)
      · exact le_trans (axisLoop_length_le _ _ _ _ _) (hfuel5 _)
    · simp
  · intro hpos m hm
    simp only [lateralSteps] at hm
    by_cases hth : 1 / 2 < |objx - rx|
    · rw [if_pos hth, if_pos hpos] at hm
      exact axisLoop_mem _ _ _ _ _ m hm
    · rw [if_neg hth] at hm
      simp at hm
  · intro hneg m hm
    simp only [lateralSteps] at hm
    by_cases hth : 1 / 2 < |objx - rx|
    · rw [if_pos hth, if_neg (not_lt.mpr (le_of_lt hneg))] at hm
      exact axisLoop_mem _ _ _ _ _ m hm
    · rw [if_neg hth] at hm
      simp at hm
  · intro hpos k hk hlen
    simp only [lateralSteps] at hlen
    by_cases hth : 1 / 2 < |objx - rx|
    · rw [if_pos hth, if_pos hpos] at hlen
      exact axisLoop_early_stop _ _ _ _ _ k hk hlen
    · rw [if_neg hth] at hlen
      simp at hlen
  · intro hneg k hk hlen
    simp only [lateralSteps] at hlen
    by_cases hth : 1 / 2 < |objx - rx|
    · rw [if_pos hth, if_neg (not_lt.mpr (le_of_lt hneg))] at hlen
      exact axisLoop_early_stop _ _ _ _ _ k hk hlen
    · rw [if_neg hth] at hlen
      simp at hlen
  · intro h
    simp only [forwardSteps]
    rw [if_neg (not_lt.mpr h)]
  · intro h
    simp only [forwardSteps]
    rw [if_pos h]
    exact axisLoop_ne_nil _ _ _ _ _ (hfuel1 _)
  · simp only [forwardSteps]
    split
    · exact le_trans (axisLoop_length_le _ _ _ _ _) (hfuel5 _)
    · simp
  · intro m hm
    simp only [forwardSteps] at hm
    by_cases hth : 1 / 2 < objy - ry
    · rw [if_pos hth] at hm
      exact axisLoop_mem _ _ _ _ _ m hm
    · rw [if_neg hth] at hm
      simp at hm
  · intro k hk hlen
    simp only [forwardSteps] at hlen
    by_cases hth : 1 / 2 < objy - ry
    · rw [if_pos hth] at hlen
      exact axisLoop_early_stop _ _ _ _ _ k hk hlen
    · rw [if_neg hth] at hlen
      simp at hlen

/-- C8, witness: at the spec scenario target `(5, 4)` from `(1, 1)` both
insertion blocks are nonempty and respect the 5-step caps. -/
theorem C8_witness :
    (lateralSteps 5 1).1 ≠ [] ∧ (lateralSteps 5 1).1.length ≤ 5 ∧
    (forwardSteps 4 1).1 ≠ [] ∧ (forwardSteps 4 1).1.length ≤ 5 := by
  obtain ⟨-, -, h3, h4, -, -, -, -, -, h10, h11, -, -⟩ := C8_thm 5 4 1 1
  exact ⟨h3 (by with_unfolding_all decide), h4,
    h10 (by with_unfolding_all decide), h11⟩

/-! ## Claim C9, amended part -/

theorem findNearestAux_spec (rx ry : ℚ) :
    ∀ (l : List (ℚ × ℚ)) (best : ℚ × ℚ) (d : ℚ),
      d = sqDist rx ry best.1 best.2 →
      (findNearestAux rx ry l best d = best ∨ findNearestAux rx ry l best d ∈ l) ∧
      sqDist rx ry (findNearestAux rx ry l best d).1
        (findNearestAux rx ry l best d).2 ≤ d ∧
      (∀ p ∈ l, sqDist rx ry (findNearestAux rx ry l best d).1
          (findNearestAux rx ry l best d).2 ≤ sqDist rx ry p.1 p.2)
  | [], best, d, hd => by
    refine ⟨Or.inl rfl, le_of_eq ?_, by simp⟩
    simp only [findNearestAux]
    exact hd.symm
  | o :: rest, best, d, hd => by
    simp only [findNearestAux]
    split
    · rename_i hlt
      obtain ⟨hmem, hle, hall⟩ :=
        findNearestAux_spec rx ry rest o (sqDist rx ry o.1 o.2) rfl
      refine ⟨?_, le_of_lt (lt_of_le_of_lt hle hlt), ?_⟩
      · rcases hmem with h' | h'
        · refine Or.inr ?_
          rw [h']
          exact List.mem_cons_self o rest
        · exact Or.inr (List.mem_cons_of_mem o h')
      · intro p hp
        rcases List.mem_cons.mp hp with rfl | hp'
        · exact hle
        · exact hall p hp'
    · rename_i hnlt
      obtain ⟨hmem, hle, hall⟩ := findNearestAux_spec rx ry rest best d hd
      refine ⟨?_, hle, ?_⟩
      · rcases hmem with h' | h'
        · exact Or.inl h'
        · exact Or.inr (List.mem_cons_of_mem o h')
      · intro p hp
        rcases List.mem_cons.mp hp with rfl | hp'
        · exact le_trans hle (not_lt.mp hnlt)
        · exact hall p hp'

/-- C9, amended: the target chosen before a pickup is the nearest manual
object — by squared Euclidean distance, equivalently Euclidean distance —
among *all* manual objects, with no claiming: the source never removes a
chosen object, so a later pickup may choose the same coordinate again, as
the counterexample above shows. -/
theorem C9_amended_thm (rx ry : ℚ) (objs : List (ℚ × ℚ)) (o : ℚ × ℚ)
    (h : findNearest rx ry objs = some o) :
    o ∈ objs ∧ ∀ p ∈ objs, sqDist rx ry o.1 o.2 ≤ sqDist rx ry p.1 p.2 := by
  cases objs with
  | nil => simp [findNearest] at h
  | cons a rest =>
    simp only [findNearest, Option.some.injEq] at h
    obtain ⟨hmem, hle, hall⟩ :=
      findNearestAux_spec rx ry rest a (sqDist rx ry a.1 a.2) rfl
    subst h
    constructor
    · rcases hmem with h' | h'
      · rw [h']
        exact List.mem_cons_self a rest
      · exact List.mem_cons_of_mem a h'
    · intro p hp
      rcases List.mem_cons.mp hp with rfl | hp'
      · exact hle
      · exact hall p hp'

/-- C9, witness for the amended theorem: at the robot position `(1, 1)` of
the counterexample run, the chosen object `(1, 5/2)` is indeed nearest
among both objects. -/
theorem C9_amended_witness :
    ((1 : ℚ), (5 / 2 : ℚ)) ∈ [((1 : ℚ), (5 / 2 : ℚ)), (1, 100)] ∧
    ∀ p ∈ [((1 : ℚ), (5 / 2 : ℚ)), (1, 100)],
      sqDist 1 1 ((1 : ℚ), (5 / 2 : ℚ)).1 ((1 : ℚ), (5 / 2 : ℚ)).2
        ≤ sqDist 1 1 p.1 p.2 :=
  C9_amended_thm 1 1 [((1 : ℚ), (5 / 2 : ℚ)), (1, 100)] (1, 5 / 2)
    (by with_unfolding_all decide)

end FVApp
